import Mathlib

/-!
Verification development for the QLever query-execution engine fragments.

Each section embeds, as executable Lean definitions, the part of the C++
source that a claim refers to:

* `GeoVocab` — `GeoVocabulary<V>::getGeoInfo` and `GeoVocabulary<V>::open`
  (geo-info sidecar file access and version check).
* `GeoWordWriter` — the three-stage bounded-queue `GeoVocabulary::WordWriter`
  pipeline (ingest thread / worker threads / writer thread).
* `TransPath` — `TransitivePathBase` construction and
  `getSizeEstimateBeforeLimit`.
* `TextScan` — `TextIndexScanForEntity` construction and cache keys
  (modelled from the spec; the implementation is not among the given
  source files, only its tests are).
* `DeltaTriples` — `DeltaTriplesCount` JSON projection and subtraction
  (modelled from the spec; only the test is among the given files).
* `MatViews` — `BasicGraphPatternsInvariantTo` from
  `MaterializedViewsQueryAnalysis.cpp`.

Machine integers of the source (`uint64_t`, `size_t`) are modelled as `Nat`;
the quantities involved (vocabulary indices, sizes, estimates) never
overflow in any reachable execution considered by the claims, and no claim
is about wrap-around behaviour.  Fallible C++ paths (`throw`,
`AD_CONTRACT_CHECK`) are modelled with `Except`.
-/

namespace GeoVocab

/-- A byte of an on-disk file.  We use `Nat`; only equality with zero
matters for the sentinel comparison. -/
abbrev Byte := Nat

/-- `ad_utility::File::read(ptr, count, offset)`: read `count` bytes at
byte offset `offset` of the file. -/
def fileRead (bytes : List Byte) (count offset : Nat) : List Byte :=
  (bytes.drop offset).take count

/-- `invalidGeoInfoBuffer`: the all-zero buffer of `geoInfoOffset`
(= `sizeof(GeometryInfo)`) bytes marking an invalid geometry
(`GeoVocabulary.h`). -/
def invalidGeoInfoBuffer (geoInfoOffset : Nat) : List Byte :=
  List.replicate geoInfoOffset 0

/-- Failure of `AD_CONTRACT_CHECK` (a programmer-invariant breach). -/
inductive ContractViolation : Type
  | indexOutOfRange
deriving DecidableEq

/-- `GeoVocabulary<V>::getGeoInfo(index)`.  `bitCast` stands for
`absl::bit_cast<GeometryInfo>` on a `geoInfoOffset`-byte buffer, `γ` for
`GeometryInfo`; `size` is `size()` of the underlying vocabulary; `bytes`
is the content of `geoInfoFile_`.  The source first runs
`AD_CONTRACT_CHECK(index < size())`, then reads `geoInfoOffset` bytes at
offset `geoInfoHeader + index * geoInfoOffset`, returns `nullopt` if the
buffer is all-zero and the bitcast of the buffer otherwise. -/
def getGeoInfo {γ : Type} (bitCast : List Byte → γ)
    (geoInfoHeader geoInfoOffset : Nat) (size : Nat) (bytes : List Byte)
    (index : Nat) : Except ContractViolation (Option γ) :=
  if index < size then
    let buffer := fileRead bytes geoInfoOffset
      (geoInfoHeader + index * geoInfoOffset)
    if buffer = invalidGeoInfoBuffer geoInfoOffset then Except.ok none
    else Except.ok (some (bitCast buffer))
  else Except.error ContractViolation.indexOutOfRange

/-- `GeoVocabulary::getGeoInfoFilename`: append the `.geoinfo` suffix. -/
def getGeoInfoFilename (filename : String) : String :=
  filename ++ ".geoinfo"

/-- The message of the `std::runtime_error` thrown by
`GeoVocabulary<V>::open` on a version mismatch, built exactly as the
`absl::StrCat` call in the source. -/
def geoVersionErrorMessage (geoFilename : String)
    (versionOfFile requiredVersion : Nat) : String :=
  "The geometry info version of " ++ geoFilename ++ " is " ++
  toString versionOfFile ++ ", which is incompatible with version " ++
  toString requiredVersion ++
  " as required by this version of QLever. Please rebuild your index."

/-- `GeoVocabulary<V>::open(filename)`, restricted to the version check on
the geo-info file.  `decodeVersion` stands for the in-memory
interpretation of the first `geoInfoHeader` bytes as the version word;
`requiredVersion` is the compiled-in `ad_utility::GEOMETRY_INFO_VERSION`.
The source reads the version word at offset 0 and throws iff it differs
from the required version. -/
def openGeoVocabulary (decodeVersion : List Byte → Nat)
    (requiredVersion geoInfoHeader : Nat) (filename : String)
    (geoBytes : List Byte) : Except String Unit :=
  let versionOfFile := decodeVersion (fileRead geoBytes geoInfoHeader 0)
  if versionOfFile ≠ requiredVersion then
    Except.error (geoVersionErrorMessage (getGeoInfoFilename filename)
      versionOfFile requiredVersion)
  else Except.ok ()

end GeoVocab

namespace GeoWordWriter

/-- `mytest::WorkItem` (`GeoVocabulary.h`): an index together with the word
bytes pushed onto the bounded work queue. -/
structure WorkItem : Type where
  index : Nat
  data : String
deriving DecidableEq

/-- `mytest::Result`: the index together with the computed
`Option GeometryInfo`.  `α` stands for `ad_utility::GeometryInfo`. -/
structure Result (α : Type) : Type where
  index : Nat
  output : Option α
deriving DecidableEq

/-- `mytest::process`: compute `GeometryInfo::fromWktLiteral` on the work
item's data, keeping its index.  `fromWktLiteral` is the abstract WKT
parser (its implementation lives in `rdfTypes/GeometryInfo`, outside the
embedded sources); the claims only need that the pipeline applies the
same function per word as a single-threaded reference run would. -/
def process {α : Type} (fromWktLiteral : String → Option α)
    (item : WorkItem) : Result α :=
  ⟨item.index, fromWktLiteral item.data⟩

/-- Lookup in the writer's `std::map<size_t, mytest::Result>` keyed by
index (`results.count(k)` / `results[k]`). -/
def lookupKey {β : Type} : List (Nat × β) → Nat → Option β
  | [], _ => none
  | (k, v) :: rest, j => if j = k then some v else lookupKey rest j

/-- `results.erase(k)` on the ordered map, modelled on the association
list. -/
def eraseKey {β : Type} (k : Nat) : List (Nat × β) → List (Nat × β)
  | [] => []
  | e :: rest => if e.1 = k then eraseKey k rest else e :: eraseKey k rest

/-- `results[k] = v` (insert-or-assign on the `std::map`). -/
def insertKey {β : Type} (k : Nat) (v : β) (m : List (Nat × β)) :
    List (Nat × β) :=
  (k, v) :: eraseKey k m

/-- The state of the writer thread of `GeoVocabulary::WordWriter`:
the pending `results` map, the `next` in-sequence index, the records
written to the geo-info sidecar so far (in write order; each record is
either a serialized `GeometryInfo` or the all-zero sentinel, modelled at
the `Option` level), and the two diagnostic counters. -/
structure WriterState (α : Type) : Type where
  results : List (Nat × Option α)
  next : Nat
  file : List (Option α)
  numInvalidGeometries : Nat
  numInvalidPolygonArea : Nat
deriving DecidableEq

/-- One iteration of the writer thread for the next-in-sequence result
`info`: write the record to the sidecar (the `GeometryInfo`, or the
all-zero sentinel for `nullopt`), update the diagnostic counters
(`areaValid` stands for `GeometryInfo::getMetricArea().isValid()`),
erase the map entry and advance `next`. -/
def writeStep {α : Type} (areaValid : α → Bool) (st : WriterState α)
    (info : Option α) : WriterState α :=
  { results := eraseKey st.next st.results,
    next := st.next + 1,
    file := st.file ++ [info],
    numInvalidGeometries :=
      st.numInvalidGeometries + (if info.isSome then 0 else 1),
    numInvalidPolygonArea :=
      st.numInvalidPolygonArea +
        (match info with
         | some v => if areaValid v then 0 else 1
         | none => 0) }

/-- The inner `while (results.count(next))` loop of the writer thread:
while the next-in-sequence result is present, perform a `writeStep` on
it.  The `fuel` argument only bounds the recursion; since every
iteration erases one entry of `results`, a fuel of `results.length` is
enough for the loop to run to quiescence. -/
def drainFuel {α : Type} (areaValid : α → Bool) :
    Nat → WriterState α → WriterState α
  | 0, st => st
  | fuel + 1, st =>
    match lookupKey st.results st.next with
    | some info => drainFuel areaValid fuel (writeStep areaValid st info)
    | none => st

/-- Run the writer-thread loop to quiescence. -/
def drain {α : Type} (areaValid : α → Bool) (st : WriterState α) :
    WriterState α :=
  drainFuel areaValid st.results.length st

/-- A worker publishing one computed result: insert it into the results
map under the mutex and notify the writer, which drains all
now-available in-sequence results. -/
def publish {α : Type} (areaValid : α → Bool) (st : WriterState α)
    (r : Result α) : WriterState α :=
  drain areaValid { st with results := insertKey r.index r.output st.results }

/-- The writer state before any result arrives. -/
def initialWriterState {α : Type} : WriterState α :=
  ⟨[], 0, [], 0, 0⟩

/-- The cumulative effect of the worker and writer threads on the sidecar
file, given the sequence `arrivals` in which the parallel preprocessing
of the words completed.  The writer thread's final state only depends on
this completion order: it blocks until the next-in-sequence index is
present and drains greedily, so interleaving publishes with a lazier
writer schedule yields the same final state. -/
def runWriter {α : Type} (areaValid : α → Bool)
    (arrivals : List (Result α)) : WriterState α :=
  arrivals.foldl (publish areaValid) initialWriterState

/-- State of the ingest (caller) side: the counter of the underlying
vocabulary word writer and the work items pushed onto the bounded queue,
in push order. -/
structure IngestState : Type where
  counter : Nat
  queue : List WorkItem
deriving DecidableEq

/-- Modelled from the spec: the underlying vocabulary's word writer
(`CompressedVocabulary`/`VocabularyInternalExternal` word writers, not
among the embedded sources) "assigns the next monotone index" and
returns it synchronously — i.e. it returns the current counter value and
increments it. -/
def underlyingWordWriterCall (counter : Nat) : Nat × Nat :=
  (counter, counter + 1)

/-- `GeoVocabulary<V>::WordWriter::operator()(word, isExternal)`: obtain
the dense index from the underlying word writer, push
`{index, std::string(word)}` onto the bounded work queue, and return the
index.  (`isExternal` is forwarded to the underlying writer only and
does not influence the index assignment or the queue item.) -/
def wordWriterCall (st : IngestState) (word : String) : IngestState × Nat :=
  let p := underlyingWordWriterCall st.counter
  (⟨p.2, st.queue ++ [⟨p.1, word⟩]⟩, p.1)

/-- Feed a sequence of `(word, isExternal)` literals to the word writer,
collecting the returned indices. -/
def ingestAll (st : IngestState) :
    List (String × Bool) → IngestState × List Nat
  | [] => (st, [])
  | wb :: rest =>
    let r := wordWriterCall st wb.1
    let rec' := ingestAll r.1 rest
    (rec'.1, r.2 :: rec'.2)

/-- The invariant of the writer thread, relative to the set `S` of
indices whose preprocessing has completed so far: the pending map holds
exactly the completed indices not yet written, with the reference value;
the file holds the records of indices `0, …, next-1` in index order; all
written indices have completed; and the writer is stalled (`next` has
not completed yet). -/
def WriterInv {α : Type} (g : Nat → Option α) (S : Finset Nat)
    (st : WriterState α) : Prop :=
  (∀ j, lookupKey st.results j =
      if j ∈ S ∧ st.next ≤ j then some (g j) else none) ∧
  st.file = (List.range st.next).map g ∧
  (∀ m, m < st.next → m ∈ S) ∧
  st.next ∉ S

end GeoWordWriter

namespace TransPath

/-- `TripleComponent` restricted to what `TransitivePathBase` inspects:
either a variable or a fixed (non-variable) term such as an IRI or
literal. -/
inductive TripleComponentM : Type
  | var (name : String)
  | fixed (term : String)
deriving DecidableEq

/-- `TransitivePathSide`: the value (variable or fixed term) and the
optionally attached execution subtree with its join column.  The
subtree is represented by its `getSizeEstimate()` (the only attribute
`getSizeEstimateBeforeLimit` reads from it). -/
structure TransitivePathSideM : Type where
  value : TripleComponentM
  treeAndCol : Option (Nat × Nat)
deriving DecidableEq

/-- `TransitivePathSide::isVariable()`. -/
def isVariable (s : TransitivePathSideM) : Bool :=
  match s.value with
  | TripleComponentM.var _ => true
  | TripleComponentM.fixed _ => false

/-- `TransitivePathSide::isBoundVariable()`: a variable side with an
attached tree. -/
def isBoundVariable (s : TransitivePathSideM) : Bool :=
  isVariable s && s.treeAndCol.isSome

/-- `TransitivePathSide::isUnboundVariable()`: a variable side without an
attached tree. -/
def isUnboundVariable (s : TransitivePathSideM) : Bool :=
  isVariable s && !s.treeAndCol.isSome

/-- `TransitivePathBase::decideDirection()`, reduced to which side is the
starting side: the left if it is a bound variable; otherwise the right
if it is a bound variable or not a variable; otherwise the left. -/
def decideDirectionFirstIsLhs (lhs rhs : TransitivePathSideM) : Bool :=
  if isBoundVariable lhs then true
  else if isBoundVariable rhs || !isVariable rhs then false
  else true

/-- The attributes of a constructed `TransitivePathBase` operator that the
claims read: the two sides, the distance bounds, the size estimate of
the subtree computing the relation, and the
`boundVariableIsForEmptyPath_` flag. -/
structure TransitivePathBaseM : Type where
  lhs : TransitivePathSideM
  rhs : TransitivePathSideM
  minDist : Nat
  maxDist : Nat
  subtreeSizeEstimate : Nat
  boundVariableIsForEmptyPath : Bool
deriving DecidableEq

/-- The `minDist_ == 0` handling of the `TransitivePathBase` constructor:
if both sides are fixed and their values differ, lift `minDist_` to 1;
else if both sides are unbound variables, attach the synthetic
empty-path side (a distinct full scan; represented by its size estimate
`emptyPathSideSize`) to the left and set
`boundVariableIsForEmptyPath_`; else, if the starting side is not a
variable, attach the `joinWithIndexScan` tree (represented by
`joinWithIndexScanSize`) to it. -/
def constructTransitivePathBase (subtreeSizeEstimate : Nat)
    (lhs rhs : TransitivePathSideM) (minDist maxDist : Nat)
    (emptyPathSideSize joinWithIndexScanSize : Nat) : TransitivePathBaseM :=
  if minDist = 0 then
    if !isVariable lhs && !isVariable rhs && lhs.value ≠ rhs.value then
      ⟨lhs, rhs, 1, maxDist, subtreeSizeEstimate, false⟩
    else if isUnboundVariable lhs && isUnboundVariable rhs then
      ⟨{ lhs with treeAndCol := some (emptyPathSideSize, 0) }, rhs, 0,
        maxDist, subtreeSizeEstimate, true⟩
    else if decideDirectionFirstIsLhs lhs rhs then
      if !isVariable lhs then
        ⟨{ lhs with treeAndCol := some (joinWithIndexScanSize, 0) }, rhs, 0,
          maxDist, subtreeSizeEstimate, false⟩
      else ⟨lhs, rhs, 0, maxDist, subtreeSizeEstimate, false⟩
    else
      if !isVariable rhs then
        ⟨lhs, { rhs with treeAndCol := some (joinWithIndexScanSize, 0) }, 0,
          maxDist, subtreeSizeEstimate, false⟩
      else ⟨lhs, rhs, 0, maxDist, subtreeSizeEstimate, false⟩
  else ⟨lhs, rhs, minDist, maxDist, subtreeSizeEstimate, false⟩

/-- `TransitivePathBase::getSizeEstimateBeforeLimit()`: 1000 if either
side is fixed; otherwise the size estimate of the left side's attached
tree if present, else of the right side's attached tree if present, else
`subtree_->getSizeEstimate() * 10000`. -/
def getSizeEstimateBeforeLimit (op : TransitivePathBaseM) : Nat :=
  if !isVariable op.lhs || !isVariable op.rhs then 1000
  else
    match op.lhs.treeAndCol with
    | some tc => tc.1
    | none =>
      match op.rhs.treeAndCol with
      | some tc => tc.1
      | none => op.subtreeSizeEstimate * 10000

end TransPath

namespace TextScan

/-- Modelled from the spec: the attributes of a `TextIndexScanForEntity`
(the implementation is not among the embedded sources; only its tests
are).  `varOrFixed` is the entity designation: `Sum.inl` an entity
variable name, `Sum.inr` a fixed entity string.  `word` is the search
word as written, a trailing `*` marking a prefix search. -/
structure TextIndexScanForEntityM : Type where
  textVar : String
  varOrFixed : Sum String String
  word : String
deriving DecidableEq

/-- The construction-time error message for a fixed entity that is not in
the knowledge graph, as asserted by the `KnownEmpty` test. -/
def fixedEntityErrorMessage (fixedEntity : String) : String :=
  "The entity " ++ fixedEntity ++
  " is not part of the underlying knowledge graph and can therefore not" ++
  " be used as the object of ql:contains-entity"

/-- Modelled from the spec: constructing a `TextIndexScanForEntity`.
"a fixed entity that is not present in the knowledge graph is a
construction-time hard error"; with an entity variable, construction
succeeds.  `kgEntities` abstracts the entity vocabulary of the
underlying knowledge graph. -/
def makeTextIndexScanForEntity (kgEntities : List String) (textVar : String)
    (varOrFixed : Sum String String) (word : String) :
    Except String TextIndexScanForEntityM :=
  match varOrFixed with
  | Sum.inr fixedEntity =>
    if kgEntities.contains fixedEntity then
      Except.ok ⟨textVar, Sum.inr fixedEntity, word⟩
    else Except.error (fixedEntityErrorMessage fixedEntity)
  | Sum.inl entityVar => Except.ok ⟨textVar, Sum.inl entityVar, word⟩

/-- Whether the scan has a fixed entity. -/
def hasFixedEntity (s : TextIndexScanForEntityM) : Bool :=
  match s.varOrFixed with
  | Sum.inr _ => true
  | Sum.inl _ => false

/-- The fixed entity of the scan, if any. -/
def fixedEntityOf (s : TextIndexScanForEntityM) : Option String :=
  match s.varOrFixed with
  | Sum.inr e => some e
  | Sum.inl _ => none

/-- `TextIndexScanForEntity::getResultWidth()`: 2 with a fixed entity
(text + score), 3 with an entity variable (text + entity + score); per
spec §4.6 and the `FixedEntityScan`/`EntityScanBasic` tests. -/
def getResultWidth (s : TextIndexScanForEntityM) : Nat :=
  if hasFixedEntity s then 2 else 3

/-- Modelled from the spec: the content of
`TextIndexScanForEntity::getCacheKeyImpl()`.  Per the cache-key law
(§4.2) and the `CacheKeys` test, the word (with its prefix marker) and
the fixed entity (when present) participate in the key; the names of
the text variable and of the entity variable do not. -/
structure TextScanCacheKey : Type where
  word : String
  fixedEntity : Option String
deriving DecidableEq

/-- The cache key of a `TextIndexScanForEntity`. -/
def getCacheKeyImpl (s : TextIndexScanForEntityM) : TextScanCacheKey :=
  ⟨s.word, fixedEntityOf s⟩

end TextScan

namespace DeltaTriples

/-- Modelled from the spec: `DeltaTriplesCount` (its definition in
`index/DeltaTriples.h` is not among the embedded sources; only the test
is): the number of inserted and of deleted triples, on signed
integers. -/
structure DeltaTriplesCount : Type where
  inserted : Int
  deleted : Int
deriving DecidableEq

/-- Modelled from the spec: `to_json(j, count)` produces the JSON object
`{"inserted": i, "deleted": d, "total": i + d}`, modelled as the ordered
key/value list of the object. -/
def toJson (c : DeltaTriplesCount) : List (String × Int) :=
  [("inserted", c.inserted), ("deleted", c.deleted),
   ("total", c.inserted + c.deleted)]

/-- Modelled from the spec: `operator-` on `DeltaTriplesCount` is the
component-wise difference on signed integers. -/
def sub (a b : DeltaTriplesCount) : DeltaTriplesCount :=
  ⟨a.inserted - b.inserted, a.deleted - b.deleted⟩

end DeltaTriples

namespace MatViews

/-- The graph-pattern operations inspected by the materialized-view
invariance filter (`parsedQuery::Optional`, `parsedQuery::Bind`,
`parsedQuery::Values`).  For `Optional` the filter never looks inside,
so its contents are irrelevant; for `Bind` only the target variable
matters (`bind._target`); for `Values` only the introduced variables
(`values._inlineValues._variables`). -/
inductive GraphPatternOperation : Type
  | optionalOp (innerVariables : List String)
  | bindOp (target : String)
  | valuesOp (introducedVars : List String)
deriving DecidableEq

/-- `materializedViewsQueryAnalysis::BasicGraphPatternsInvariantTo`: the
visitor holding the set of variables referenced by the view's basic
graph patterns. -/
structure BasicGraphPatternsInvariantTo : Type where
  referencedVars : List String
deriving DecidableEq

/-- The three `operator()` overloads of `BasicGraphPatternsInvariantTo`:
`Optional` is never invariant; a `Bind` is invariant iff its target is
not among the referenced variables; a `Values` is invariant iff none of
its introduced variables is referenced. -/
def isInvariantTo (c : BasicGraphPatternsInvariantTo) :
    GraphPatternOperation → Bool
  | GraphPatternOperation.optionalOp _ => false
  | GraphPatternOperation.bindOp target => !(c.referencedVars.contains target)
  | GraphPatternOperation.valuesOp vs =>
    !(vs.any (fun v => c.referencedVars.contains v))

end MatViews

namespace TransPath

/-- C2: for every `TransitivePath` operator constructed with
`minDist == 0` where both the left and the right side are fixed
(non-variable) terms that are distinct, the constructed operator has
`minDist == 1` (the zero-length identity case is lifted away). -/
theorem minDist_lifted_on_distinct_fixed (t1 t2 : String)
    (tc1 tc2 : Option (Nat × Nat))
    (maxDist subtreeSize eSize jSize : Nat) (hne : t1 ≠ t2) :
    (constructTransitivePathBase subtreeSize
      ⟨TripleComponentM.fixed t1, tc1⟩ ⟨TripleComponentM.fixed t2, tc2⟩
      0 maxDist eSize jSize).minDist = 1 := by
  simp [constructTransitivePathBase, isVariable, hne]

/-- Witness for `minDist_lifted_on_distinct_fixed` at concrete input. -/
theorem minDist_lifted_on_distinct_fixed_witness :
    "<x>" ≠ "<y>" ∧
    (constructTransitivePathBase 5
      ⟨TripleComponentM.fixed "<x>", none⟩
      ⟨TripleComponentM.fixed "<y>", none⟩
      0 7 3 4).minDist = 1 :=
  ⟨by decide, minDist_lifted_on_distinct_fixed "<x>" "<y>" none none 7 5 3 4
    (by decide)⟩

/-- C3 counterexample: a `TransitivePath` operator constructed with two
distinct unbound variables and `minDist = 0` (so the synthetic
empty-path side, here of size estimate 42, is attached to the left side)
has both sides variable, yet its size estimate before limit is the
attached tree's estimate 42 and not `10000 ×` the subtree's size
estimate. -/
theorem sizeEstimate_claim_counterexample :
    isVariable (constructTransitivePathBase 1
      ⟨TripleComponentM.var "?x", none⟩ ⟨TripleComponentM.var "?y", none⟩
      0 10 42 7).lhs = true ∧
    isVariable (constructTransitivePathBase 1
      ⟨TripleComponentM.var "?x", none⟩ ⟨TripleComponentM.var "?y", none⟩
      0 10 42 7).rhs = true ∧
    (constructTransitivePathBase 1
      ⟨TripleComponentM.var "?x", none⟩ ⟨TripleComponentM.var "?y", none⟩
      0 10 42 7).subtreeSizeEstimate = 1 ∧
    getSizeEstimateBeforeLimit (constructTransitivePathBase 1
      ⟨TripleComponentM.var "?x", none⟩ ⟨TripleComponentM.var "?y", none⟩
      0 10 42 7) = 42 ∧
    getSizeEstimateBeforeLimit (constructTransitivePathBase 1
      ⟨TripleComponentM.var "?x", none⟩ ⟨TripleComponentM.var "?y", none⟩
      0 10 42 7) ≠
      10000 * (constructTransitivePathBase 1
        ⟨TripleComponentM.var "?x", none⟩ ⟨TripleComponentM.var "?y", none⟩
        0 10 42 7).subtreeSizeEstimate := by
  decide

/-- C3 amended: the size estimate before limit is 1000 whenever either
side is a fixed (non-variable) term; otherwise, when a side has an
attached execution subtree (the left side checked first), it is that
subtree's size estimate; and only when both sides are variables without
attached subtrees does it equal the subtree's size estimate times
10000. -/
theorem sizeEstimate_characterization (op : TransitivePathBaseM) :
    ((isVariable op.lhs = false ∨ isVariable op.rhs = false) →
      getSizeEstimateBeforeLimit op = 1000) ∧
    (isVariable op.lhs = true → isVariable op.rhs = true →
      ∀ tc, op.lhs.treeAndCol = some tc →
        getSizeEstimateBeforeLimit op = tc.1) ∧
    (isVariable op.lhs = true → isVariable op.rhs = true →
      op.lhs.treeAndCol = none → ∀ tc, op.rhs.treeAndCol = some tc →
        getSizeEstimateBeforeLimit op = tc.1) ∧
    (isVariable op.lhs = true → isVariable op.rhs = true →
      op.lhs.treeAndCol = none → op.rhs.treeAndCol = none →
      getSizeEstimateBeforeLimit op = op.subtreeSizeEstimate * 10000) := by
  refine ⟨?_, ?_, ?_, ?_⟩
  · intro h
    rcases h with h | h <;> simp [getSizeEstimateBeforeLimit, h]
  · intro h1 h2 tc htc
    simp [getSizeEstimateBeforeLimit, h1, h2, htc]
  · intro h1 h2 hl tc htc
    simp [getSizeEstimateBeforeLimit, h1, h2, hl, htc]
  · intro h1 h2 hl hr
    simp [getSizeEstimateBeforeLimit, h1, h2, hl, hr]

/-- Witness for `sizeEstimate_characterization` at a concrete operator
with both sides variable and no attached subtrees. -/
theorem sizeEstimate_characterization_witness :
    isVariable (⟨⟨TripleComponentM.var "?a", none⟩,
      ⟨TripleComponentM.var "?b", none⟩, 1, 5, 3,
      false⟩ : TransitivePathBaseM).lhs = true ∧
    getSizeEstimateBeforeLimit
      (⟨⟨TripleComponentM.var "?a", none⟩, ⟨TripleComponentM.var "?b", none⟩,
        1, 5, 3, false⟩ : TransitivePathBaseM) = 3 * 10000 :=
  ⟨by decide,
    (sizeEstimate_characterization
      ⟨⟨TripleComponentM.var "?a", none⟩, ⟨TripleComponentM.var "?b", none⟩,
        1, 5, 3, false⟩).2.2.2 (by decide) (by decide) rfl rfl⟩

end TransPath

namespace TextScan

/-- C4: constructing a `TextIndexScanForEntity` with a fixed entity that
is in the knowledge graph succeeds and the result width is 2;
with a fixed entity that is not in the knowledge graph it fails with an
error whose message names the entity and `ql:contains-entity`; with an
entity variable this error is never raised. -/
theorem fixedEntity_construction (kg : List String)
    (textVar word e v : String) :
    (kg.contains e = true →
      makeTextIndexScanForEntity kg textVar (Sum.inr e) word =
        Except.ok ⟨textVar, Sum.inr e, word⟩ ∧
      getResultWidth ⟨textVar, Sum.inr e, word⟩ = 2) ∧
    (kg.contains e = false →
      makeTextIndexScanForEntity kg textVar (Sum.inr e) word =
        Except.error (fixedEntityErrorMessage e) ∧
      (∃ a b : String, fixedEntityErrorMessage e = a ++ (e ++ b)) ∧
      (∃ a b : String,
        fixedEntityErrorMessage e = a ++ ("ql:contains-entity" ++ b))) ∧
    makeTextIndexScanForEntity kg textVar (Sum.inl v) word =
      Except.ok ⟨textVar, Sum.inl v, word⟩ := by
  refine ⟨fun h => ?_, fun h => ?_, rfl⟩
  · have hm : e ∈ kg := by simpa using h
    exact ⟨by simp [makeTextIndexScanForEntity, hm], rfl⟩
  · have hm : e ∉ kg := by simpa using h
    refine ⟨by simp [makeTextIndexScanForEntity, hm], ?_, ?_⟩
    · refine ⟨"The entity ",
        " is not part of the underlying knowledge graph and can therefore not"
          ++ " be used as the object of ql:contains-entity", ?_⟩
      rw [fixedEntityErrorMessage]
      simp [String.append_assoc]
    · refine ⟨"The entity " ++ e ++
        " is not part of the underlying knowledge graph and can therefore not"
          ++ " be used as the object of ", "", ?_⟩
      have h2 : ("ql:contains-entity" ++ "" : String) = "ql:contains-entity" := by
        decide
      have h3 : (" be used as the object of ql:contains-entity" : String) =
          " be used as the object of " ++ "ql:contains-entity" := by decide
      rw [fixedEntityErrorMessage, h2, h3]
      simp [String.append_assoc]

/-- Witness for `fixedEntity_construction` at the concrete knowledge
graph of the test, with fixed entity present. -/
theorem fixedEntity_construction_witness :
    (["\"some other sentence\"", "\"he failed the test\""].contains
      "\"some other sentence\"" = true) ∧
    (makeTextIndexScanForEntity
      ["\"some other sentence\"", "\"he failed the test\""] "?text3"
      (Sum.inr "\"some other sentence\"") "sentence" =
      Except.ok ⟨"?text3", Sum.inr "\"some other sentence\"", "sentence"⟩ ∧
    getResultWidth
      ⟨"?text3", Sum.inr "\"some other sentence\"", "sentence"⟩ = 2) :=
  ⟨by decide,
    (fixedEntity_construction
      ["\"some other sentence\"", "\"he failed the test\""] "?text3"
      "sentence" "\"some other sentence\"" "?e").1 (by decide)⟩

/-- C5: the cache keys of two `TextIndexScanForEntity` operators are
equal exactly when their words (including the prefix marker) agree and
their entity designations agree (both the same fixed entity, or both an
entity variable); the names of the text variable and of the entity
variable do not participate in the key. -/
theorem cacheKey_characterization (s1 s2 : TextIndexScanForEntityM) :
    getCacheKeyImpl s1 = getCacheKeyImpl s2 ↔
      (s1.word = s2.word ∧ fixedEntityOf s1 = fixedEntityOf s2) := by
  constructor
  · intro h
    exact ⟨congrArg TextScanCacheKey.word h,
      congrArg TextScanCacheKey.fixedEntity h⟩
  · intro h
    rcases h with ⟨h1, h2⟩
    simp [getCacheKeyImpl, h1, h2]

end TextScan

namespace DeltaTriples

/-- C6: the JSON projection of a `DeltaTriplesCount` is
`{"inserted": i, "deleted": d, "total": i + d}` and subtraction is the
component-wise signed-integer difference; concretely,
`{10,5} - {3,2} = {7,3}`, `{3,2} - {10,5} = {-7,-3}`, and
`{inserted:5, deleted:3}` projects to
`{"inserted":5,"deleted":3,"total":8}`. -/
theorem count_json_and_sub :
    (∀ x : DeltaTriplesCount,
      (toJson x).lookup "inserted" = some x.inserted ∧
      (toJson x).lookup "deleted" = some x.deleted ∧
      (toJson x).lookup "total" = some (x.inserted + x.deleted)) ∧
    (∀ a b : DeltaTriplesCount,
      sub a b = ⟨a.inserted - b.inserted, a.deleted - b.deleted⟩) ∧
    sub ⟨10, 5⟩ ⟨3, 2⟩ = ⟨7, 3⟩ ∧
    sub ⟨3, 2⟩ ⟨10, 5⟩ = ⟨-7, -3⟩ ∧
    toJson ⟨5, 3⟩ = [("inserted", 5), ("deleted", 3), ("total", 8)] := by
  refine ⟨fun x => ?_, fun a b => rfl, by decide, by decide, by decide⟩
  refine ⟨?_, ?_, ?_⟩ <;> simp [toJson, List.lookup]

end DeltaTriples

namespace MatViews

/-- C9: the materialized-view invariance filter classifies an `Optional`
as never invariant, a `Bind` as invariant exactly when its target
variable is not referenced, and a `Values` as invariant exactly when
none of its introduced variables is referenced. -/
theorem invariant_filter_classification
    (c : BasicGraphPatternsInvariantTo) :
    (∀ innerVariables,
      isInvariantTo c (GraphPatternOperation.optionalOp innerVariables) =
        false) ∧
    (∀ target,
      isInvariantTo c (GraphPatternOperation.bindOp target) = true ↔
        target ∉ c.referencedVars) ∧
    (∀ vs,
      isInvariantTo c (GraphPatternOperation.valuesOp vs) = true ↔
        ∀ v ∈ vs, v ∉ c.referencedVars) := by
  refine ⟨fun innerVariables => rfl, fun target => ?_, fun vs => ?_⟩
  · simp [isInvariantTo]
  · simp [isInvariantTo]

end MatViews

namespace GeoVocab

/-- C7: for an index below the vocabulary size, `getGeoInfo` depends only
on the stride-sized byte record at offset
`geoInfoHeader + index * geoInfoOffset` of the sidecar file: two files
agreeing on that record give the same result; the all-zero record yields
`none` and any other record yields the bitcast of the record. -/
theorem getGeoInfo_pure_of_record {γ : Type} (bitCast : List Byte → γ)
    (geoInfoHeader geoInfoOffset size : Nat) (b1 b2 : List Byte) (i : Nat)
    (hi : i < size)
    (hrec : fileRead b1 geoInfoOffset (geoInfoHeader + i * geoInfoOffset) =
      fileRead b2 geoInfoOffset (geoInfoHeader + i * geoInfoOffset)) :
    getGeoInfo bitCast geoInfoHeader geoInfoOffset size b1 i =
      getGeoInfo bitCast geoInfoHeader geoInfoOffset size b2 i ∧
    (fileRead b1 geoInfoOffset (geoInfoHeader + i * geoInfoOffset) =
        invalidGeoInfoBuffer geoInfoOffset →
      getGeoInfo bitCast geoInfoHeader geoInfoOffset size b1 i =
        Except.ok none) ∧
    (fileRead b1 geoInfoOffset (geoInfoHeader + i * geoInfoOffset) ≠
        invalidGeoInfoBuffer geoInfoOffset →
      getGeoInfo bitCast geoInfoHeader geoInfoOffset size b1 i =
        Except.ok (some (bitCast (fileRead b1 geoInfoOffset
          (geoInfoHeader + i * geoInfoOffset))))) := by
  refine ⟨?_, ?_, ?_⟩
  · simp [getGeoInfo, hi, hrec]
  · intro h
    simp [getGeoInfo, hi, h]
  · intro h
    simp [getGeoInfo, hi, h]

/-- Witness for `getGeoInfo_pure_of_record` at a concrete sidecar file
pair agreeing on the record of index 0. -/
theorem getGeoInfo_pure_of_record_witness :
    ((0 : Nat) < 2 ∧
      fileRead [9, 9, 1, 2, 3, 0, 0, 0] 3 (2 + 0 * 3) =
        fileRead [8, 8, 1, 2, 3, 5, 5, 5] 3 (2 + 0 * 3)) ∧
    getGeoInfo List.sum 2 3 2 [9, 9, 1, 2, 3, 0, 0, 0] 0 =
      getGeoInfo List.sum 2 3 2 [8, 8, 1, 2, 3, 5, 5, 5] 0 :=
  ⟨⟨by decide, by decide⟩,
    (getGeoInfo_pure_of_record List.sum 2 3 2 [9, 9, 1, 2, 3, 0, 0, 0]
      [8, 8, 1, 2, 3, 5, 5, 5] 0 (by decide) (by decide)).1⟩

/-- C8: `GeoVocabulary::open` reads the version word at the start of the
geo-info file; when it differs from the compiled-in version, it fails
with a message naming the file's version, the required version, and
instructing to rebuild the index; when the versions match, it succeeds
without this error. -/
theorem open_version_check (decodeVersion : List Byte → Nat)
    (requiredVersion geoInfoHeader : Nat) (filename : String)
    (geoBytes : List Byte) :
    (decodeVersion (fileRead geoBytes geoInfoHeader 0) ≠ requiredVersion →
      openGeoVocabulary decodeVersion requiredVersion geoInfoHeader
          filename geoBytes =
        Except.error (geoVersionErrorMessage (getGeoInfoFilename filename)
          (decodeVersion (fileRead geoBytes geoInfoHeader 0))
          requiredVersion) ∧
      (∃ a b : String,
        geoVersionErrorMessage (getGeoInfoFilename filename)
            (decodeVersion (fileRead geoBytes geoInfoHeader 0))
            requiredVersion =
          a ++ (toString (decodeVersion (fileRead geoBytes geoInfoHeader 0))
            ++ b)) ∧
      (∃ a b : String,
        geoVersionErrorMessage (getGeoInfoFilename filename)
            (decodeVersion (fileRead geoBytes geoInfoHeader 0))
            requiredVersion =
          a ++ (toString requiredVersion ++ b)) ∧
      (∃ a b : String,
        geoVersionErrorMessage (getGeoInfoFilename filename)
            (decodeVersion (fileRead geoBytes geoInfoHeader 0))
            requiredVersion =
          a ++ ("Please rebuild your index." ++ b))) ∧
    (decodeVersion (fileRead geoBytes geoInfoHeader 0) = requiredVersion →
      openGeoVocabulary decodeVersion requiredVersion geoInfoHeader
        filename geoBytes = Except.ok ()) := by
  refine ⟨fun h => ⟨?_, ?_, ?_, ?_⟩, fun h => ?_⟩
  · simp [openGeoVocabulary, h]
  · refine ⟨"The geometry info version of " ++ getGeoInfoFilename filename
      ++ " is ", ", which is incompatible with version "
      ++ toString requiredVersion
      ++ " as required by this version of QLever. Please rebuild your index.",
      ?_⟩
    rw [geoVersionErrorMessage]
    simp [String.append_assoc]
  · refine ⟨"The geometry info version of " ++ getGeoInfoFilename filename
      ++ " is "
      ++ toString (decodeVersion (fileRead geoBytes geoInfoHeader 0))
      ++ ", which is incompatible with version ",
      " as required by this version of QLever. Please rebuild your index.",
      ?_⟩
    rw [geoVersionErrorMessage]
    simp [String.append_assoc]
  · refine ⟨"The geometry info version of " ++ getGeoInfoFilename filename
      ++ " is "
      ++ toString (decodeVersion (fileRead geoBytes geoInfoHeader 0))
      ++ ", which is incompatible with version "
      ++ toString requiredVersion
      ++ " as required by this version of QLever. ", "", ?_⟩
    have h2 : ("Please rebuild your index." ++ "" : String) =
        "Please rebuild your index." := by decide
    have h3 : (" as required by this version of QLever. Please rebuild your index." : String) =
        " as required by this version of QLever. "
          ++ "Please rebuild your index." := by decide
    rw [geoVersionErrorMessage, h2, h3]
    simp [String.append_assoc]
  · simp [openGeoVocabulary, h]

/-- Witness for `open_version_check` at a concrete file whose version
word is 3 while version 7 is required. -/
theorem open_version_check_witness :
    (fun _ : List Byte => 3) (fileRead [3, 0, 0, 0] 4 0) ≠ 7 ∧
    openGeoVocabulary (fun _ => 3) 7 4 "vocab" [3, 0, 0, 0] =
      Except.error (geoVersionErrorMessage (getGeoInfoFilename "vocab") 3 7) :=
  ⟨by decide,
    ((open_version_check (fun _ => 3) 7 4 "vocab" [3, 0, 0, 0]).1
      (by decide)).1⟩

/-- C10: calling `getGeoInfo` with an index at or above the vocabulary
size fails the `AD_CONTRACT_CHECK` instead of reading past the sidecar
records; with an index below the size the contract-check branch is
unreachable (the call returns a value), and on a sidecar file of exactly
`size` records the read stays within the file. -/
theorem getGeoInfo_contract_check {γ : Type} (bitCast : List Byte → γ)
    (geoInfoHeader geoInfoOffset size : Nat) (bytes : List Byte) (i : Nat) :
    (size ≤ i →
      getGeoInfo bitCast geoInfoHeader geoInfoOffset size bytes i =
        Except.error ContractViolation.indexOutOfRange) ∧
    (i < size →
      ∃ o, getGeoInfo bitCast geoInfoHeader geoInfoOffset size bytes i =
        Except.ok o) ∧
    (i < size → bytes.length = geoInfoHeader + size * geoInfoOffset →
      geoInfoHeader + i * geoInfoOffset + geoInfoOffset ≤ bytes.length) := by
  refine ⟨fun h => ?_, fun h => ?_, fun h hlen => ?_⟩
  · simp [getGeoInfo, Nat.not_lt.mpr h]
  · simp only [getGeoInfo, if_pos h]
    split
    · exact ⟨none, rfl⟩
    · exact ⟨some _, rfl⟩
  · have h1 : geoInfoHeader + i * geoInfoOffset + geoInfoOffset =
        geoInfoHeader + (i + 1) * geoInfoOffset := by ring
    rw [h1, hlen]
    exact Nat.add_le_add_left (Nat.mul_le_mul_right geoInfoOffset h)
      geoInfoHeader

/-- Witness for `getGeoInfo_contract_check` at a concrete one-record
sidecar file. -/
theorem getGeoInfo_contract_check_witness :
    ((0 : Nat) < 1 ∧
      ([0, 5, 5] : List Byte).length = 1 + 1 * 2) ∧
    (∃ o, getGeoInfo List.sum 1 2 1 [0, 5, 5] 0 = Except.ok o) ∧
    1 + 0 * 2 + 2 ≤ ([0, 5, 5] : List Byte).length :=
  ⟨⟨by decide, by decide⟩,
    (getGeoInfo_contract_check List.sum 1 2 1 [0, 5, 5] 0).2.1 (by decide),
    (getGeoInfo_contract_check List.sum 1 2 1 [0, 5, 5] 0).2.2 (by decide)
      (by decide)⟩

end GeoVocab

namespace GeoWordWriter

theorem lookupKey_eraseKey_self {β : Type} (k : Nat) (m : List (Nat × β)) :
    lookupKey (eraseKey k m) k = none := by
  induction m with
  | nil => simp [eraseKey, lookupKey]
  | cons e rest ih =>
    by_cases hek : e.1 = k
    · rw [eraseKey, if_pos hek]
      exact ih
    · rw [eraseKey, if_neg hek, lookupKey,
        if_neg (fun hke => hek hke.symm)]
      exact ih

theorem lookupKey_eraseKey_ne {β : Type} (k j : Nat) (m : List (Nat × β))
    (hjk : j ≠ k) : lookupKey (eraseKey k m) j = lookupKey m j := by
  induction m with
  | nil => simp [eraseKey]
  | cons e rest ih =>
    by_cases hek : e.1 = k
    · rw [eraseKey, if_pos hek, ih, lookupKey,
        if_neg (fun hje => hjk (hje.trans hek))]
    · rw [eraseKey, if_neg hek, lookupKey, lookupKey]
      by_cases hje : j = e.1
      · rw [if_pos hje, if_pos hje]
      · rw [if_neg hje, if_neg hje, ih]

theorem length_eraseKey_le {β : Type} (k : Nat) (m : List (Nat × β)) :
    (eraseKey k m).length ≤ m.length := by
  induction m with
  | nil => simp [eraseKey]
  | cons e rest ih =>
    by_cases hek : e.1 = k
    · rw [eraseKey, if_pos hek]
      exact Nat.le_succ_of_le ih
    · rw [eraseKey, if_neg hek, List.length_cons, List.length_cons]
      exact Nat.succ_le_succ ih

theorem length_eraseKey_lt {β : Type} (k : Nat) (m : List (Nat × β)) (v : β)
    (h : lookupKey m k = some v) : (eraseKey k m).length < m.length := by
  induction m with
  | nil => simp [lookupKey] at h
  | cons e rest ih =>
    by_cases hek : e.1 = k
    · rw [eraseKey, if_pos hek, List.length_cons]
      exact Nat.lt_succ_of_le (length_eraseKey_le k rest)
    · rw [lookupKey, if_neg (fun hke => hek hke.symm)] at h
      rw [eraseKey, if_neg hek, List.length_cons, List.length_cons]
      exact Nat.succ_lt_succ (ih h)

theorem lookupKey_insertKey_self {β : Type} (k : Nat) (v : β)
    (m : List (Nat × β)) : lookupKey (insertKey k v m) k = some v := by
  simp [insertKey, lookupKey]

theorem lookupKey_insertKey_ne {β : Type} (k j : Nat) (v : β)
    (m : List (Nat × β)) (hjk : j ≠ k) :
    lookupKey (insertKey k v m) j = lookupKey m j := by
  rw [insertKey, lookupKey, if_neg hjk]
  exact lookupKey_eraseKey_ne k j m hjk

theorem writeStep_results {α : Type} (areaValid : α → Bool)
    (st : WriterState α) (info : Option α) :
    (writeStep areaValid st info).results = eraseKey st.next st.results :=
  rfl

theorem writeStep_next {α : Type} (areaValid : α → Bool)
    (st : WriterState α) (info : Option α) :
    (writeStep areaValid st info).next = st.next + 1 :=
  rfl

theorem writeStep_file {α : Type} (areaValid : α → Bool)
    (st : WriterState α) (info : Option α) :
    (writeStep areaValid st info).file = st.file ++ [info] :=
  rfl

theorem drainFuel_inv {α : Type} (areaValid : α → Bool) (g : Nat → Option α)
    (S : Finset Nat) :
    ∀ (fuel : Nat) (st : WriterState α),
      st.results.length ≤ fuel →
      (∀ j, lookupKey st.results j =
        if j ∈ S ∧ st.next ≤ j then some (g j) else none) →
      st.file = (List.range st.next).map g →
      (∀ m, m < st.next → m ∈ S) →
      WriterInv g S (drainFuel areaValid fuel st) := by
  intro fuel
  induction fuel with
  | zero =>
    intro st hlen hlook hfile hbelow
    have hres : st.results = [] := List.length_eq_zero.mp (Nat.le_zero.mp hlen)
    have hnext : st.next ∉ S := by
      intro hmem
      have hthis := hlook st.next
      rw [hres, if_pos ⟨hmem, Nat.le_refl st.next⟩] at hthis
      exact Option.noConfusion hthis
    exact ⟨hlook, hfile, hbelow, hnext⟩
  | succ fuel ih =>
    intro st hlen hlook hfile hbelow
    cases hl : lookupKey st.results st.next with
    | none =>
      have hnext : st.next ∉ S := by
        intro hmem
        have hthis := hlook st.next
        rw [hl, if_pos ⟨hmem, Nat.le_refl st.next⟩] at hthis
        exact Option.noConfusion hthis
      have hstep : drainFuel areaValid (fuel + 1) st = st := by
        rw [drainFuel, hl]
      rw [hstep]
      exact ⟨hlook, hfile, hbelow, hnext⟩
    | some info =>
      have hcond : st.next ∈ S ∧ info = g st.next := by
        have hthis := hlook st.next
        rw [hl] at hthis
        by_cases hc : st.next ∈ S ∧ st.next ≤ st.next
        · rw [if_pos hc] at hthis
          exact ⟨hc.1, Option.some.inj hthis⟩
        · rw [if_neg hc] at hthis
          exact absurd hthis (fun hcc => Option.noConfusion hcc)
      have hstep : drainFuel areaValid (fuel + 1) st =
          drainFuel areaValid fuel (writeStep areaValid st info) := by
        rw [drainFuel, hl]
      rw [hstep]
      apply ih
      · rw [writeStep_results]
        have hlt := length_eraseKey_lt st.next st.results info hl
        omega
      · intro j
        rw [writeStep_results, writeStep_next]
        by_cases hj : j = st.next
        · subst hj
          rw [lookupKey_eraseKey_self,
            if_neg (fun hc => absurd hc.2 (by omega))]
        · rw [lookupKey_eraseKey_ne st.next j st.results hj, hlook j]
          have hiff : (j ∈ S ∧ st.next ≤ j) ↔ (j ∈ S ∧ st.next + 1 ≤ j) := by
            constructor
            · rintro ⟨h1, h2⟩
              exact ⟨h1, by omega⟩
            · rintro ⟨h1, h2⟩
              exact ⟨h1, by omega⟩
          exact if_congr hiff rfl rfl
      · rw [writeStep_file, writeStep_next, hfile, hcond.2, List.range_succ,
          List.map_append]
        rfl
      · intro m hm
        rw [writeStep_next] at hm
        by_cases hmn : m < st.next
        · exact hbelow m hmn
        · have hmeq : m = st.next := by omega
          rw [hmeq]
          exact hcond.1

theorem publish_inv {α : Type} (areaValid : α → Bool) (g : Nat → Option α)
    (S : Finset Nat) (st : WriterState α) (r : Result α)
    (hout : r.output = g r.index) (hnotin : r.index ∉ S)
    (hinv : WriterInv g S st) :
    WriterInv g (insert r.index S) (publish areaValid st r) := by
  obtain ⟨hlook, hfile, hbelow, hnext⟩ := hinv
  have hge : st.next ≤ r.index := by
    by_contra hlt
    exact hnotin (hbelow r.index (by omega))
  rw [publish, drain]
  apply drainFuel_inv
  · exact Nat.le_refl _
  · intro j
    show lookupKey (insertKey r.index r.output st.results) j =
      if j ∈ insert r.index S ∧ st.next ≤ j then some (g j) else none
    by_cases hj : j = r.index
    · subst hj
      rw [lookupKey_insertKey_self, hout,
        if_pos ⟨Finset.mem_insert_self r.index S, hge⟩]
    · rw [lookupKey_insertKey_ne r.index j r.output st.results hj, hlook j]
      have hiff : (j ∈ S ∧ st.next ≤ j) ↔
          (j ∈ insert r.index S ∧ st.next ≤ j) := by
        constructor
        · rintro ⟨h1, h2⟩
          exact ⟨Finset.mem_insert_of_mem h1, h2⟩
        · rintro ⟨h1, h2⟩
          rcases Finset.mem_insert.mp h1 with h1 | h1
          · exact absurd h1 hj
          · exact ⟨h1, h2⟩
      exact if_congr hiff rfl rfl
  · exact hfile
  · intro m hm
    exact Finset.mem_insert_of_mem (hbelow m hm)

theorem foldl_publish_inv {α : Type} (areaValid : α → Bool)
    (g : Nat → Option α) :
    ∀ (arrivals : List (Result α)) (S : Finset Nat) (st : WriterState α),
      (∀ r ∈ arrivals, r.output = g r.index) →
      (arrivals.map (fun r => r.index)).Nodup →
      (∀ r ∈ arrivals, r.index ∉ S) →
      WriterInv g S st →
      WriterInv g (S ∪ (arrivals.map (fun r => r.index)).toFinset)
        (arrivals.foldl (publish areaValid) st) := by
  intro arrivals
  induction arrivals with
  | nil =>
    intro S st _ _ _ hinv
    simpa using hinv
  | cons r rest ih =>
    intro S st hout hnodup hnotin hinv
    rw [List.map_cons] at hnodup
    have hnodup' := List.nodup_cons.mp hnodup
    have h1 : WriterInv g (insert r.index S) (publish areaValid st r) :=
      publish_inv areaValid g S st r (hout r (List.mem_cons_self r rest))
        (hnotin r (List.mem_cons_self r rest)) hinv
    have h2 := ih (insert r.index S) (publish areaValid st r)
      (fun x hx => hout x (List.mem_cons_of_mem r hx))
      hnodup'.2
      (fun x hx hmem => by
        rcases Finset.mem_insert.mp hmem with hc | hc
        · have hxm : x.index ∈ rest.map (fun r => r.index) :=
            List.mem_map_of_mem (fun r => r.index) hx
          rw [hc] at hxm
          exact hnodup'.1 hxm
        · exact hnotin x (List.mem_cons_of_mem r hx) hc)
      h1
    have hset : insert r.index S ∪ (rest.map (fun r => r.index)).toFinset =
        S ∪ ((r :: rest).map (fun r => r.index)).toFinset := by
      rw [List.map_cons, List.toFinset_cons, Finset.insert_union,
        Finset.union_insert]
    rw [List.foldl_cons, ← hset]
    exact h2

end GeoWordWriter

namespace GeoWordWriter

theorem ingestAll_characterization :
    ∀ (words : List (String × Bool)) (c : Nat) (q : List WorkItem),
      (ingestAll ⟨c, q⟩ words).2 =
        (List.range words.length).map (fun i => c + i) ∧
      (ingestAll ⟨c, q⟩ words).1.queue =
        q ++ (List.range words.length).map
          (fun i => (⟨c + i, (words.getD i ("", true)).1⟩ : WorkItem)) := by
  intro words
  induction words with
  | nil =>
    intro c q
    constructor
    · rfl
    · show q = q ++ []
      rw [List.append_nil]
  | cons wb rest ih =>
    intro c q
    obtain ⟨ih1, ih2⟩ := ih (c + 1) (q ++ [⟨c, wb.1⟩])
    have hcons2 : (ingestAll ⟨c, q⟩ (wb :: rest)).2 =
        c :: (ingestAll ⟨c + 1, q ++ [⟨c, wb.1⟩]⟩ rest).2 := rfl
    have hcons1 : (ingestAll ⟨c, q⟩ (wb :: rest)).1 =
        (ingestAll ⟨c + 1, q ++ [⟨c, wb.1⟩]⟩ rest).1 := rfl
    constructor
    · rw [hcons2, ih1, List.length_cons, List.range_succ_eq_map,
        List.map_cons, List.map_map]
      have hfun : ((fun i => c + i) ∘ fun i => i + 1) =
          fun i => c + 1 + i := by
        funext i
        show c + (i + 1) = c + 1 + i
        omega
      rw [hfun]
      simp
    · rw [hcons1, ih2, List.length_cons, List.range_succ_eq_map,
        List.map_cons, List.map_map, List.append_assoc,
        List.singleton_append]
      have hfun : ((fun i =>
            (⟨c + i, ((wb :: rest).getD i ("", true)).1⟩ : WorkItem)) ∘
          fun i => i + 1) =
          fun i => (⟨c + 1 + i, (rest.getD i ("", true)).1⟩ : WorkItem) := by
        funext i
        show (⟨c + (i + 1), ((wb :: rest).getD (i + 1) ("", true)).1⟩ :
            WorkItem) = ⟨c + 1 + i, (rest.getD i ("", true)).1⟩
        have harith : c + (i + 1) = c + 1 + i := by omega
        rw [harith, List.getD_cons_succ]
      rw [hfun]
      simp

theorem range_map_getD {β γ : Type} (F : β → γ) (d : β) :
    ∀ l : List β,
      (List.range l.length).map (fun i => F (l.getD i d)) = l.map F := by
  intro l
  induction l with
  | nil => rfl
  | cons x rest ih =>
    rw [List.length_cons, List.range_succ_eq_map, List.map_cons,
      List.map_map, List.map_cons]
    congr 1

end GeoWordWriter

namespace GeoWordWriter

/-- C1: for every input sequence of `(word, isExternal)` literals fed to
the `GeoVocabulary` `WordWriter`, each call returns that word's assigned
dense index (the calls return `0, 1, 2, …` in order), and after all
parallel preprocessing results have been consumed — in any completion
order, i.e. for every permutation `arrivals` of the processed work
items — the geometry-info sidecar holds, at position `i`, the record
computed from the `i`-th input word (the `GeometryInfo`, or the sentinel
when parsing fails), in index order; thus the `i`-th record equals the
single-threaded reference computation `fromWktLiteral` on input `i`. -/
theorem writer_pipeline_correct {α : Type}
    (fromWktLiteral : String → Option α) (areaValid : α → Bool)
    (words : List (String × Bool)) (arrivals : List (Result α))
    (hperm : arrivals.Perm
      ((ingestAll ⟨0, []⟩ words).1.queue.map (process fromWktLiteral))) :
    (ingestAll ⟨0, []⟩ words).2 = List.range words.length ∧
    (runWriter areaValid arrivals).file =
      words.map (fun wb => fromWktLiteral wb.1) ∧
    (∀ i, i < words.length →
      (runWriter areaValid arrivals).file[i]? =
        some (fromWktLiteral ((words.getD i ("", true)).1))) := by
  obtain ⟨hidx, hqueue⟩ := ingestAll_characterization words 0 []
  have hidx' : (ingestAll ⟨0, []⟩ words).2 = List.range words.length := by
    rw [hidx]
    have hfun : (fun i : Nat => 0 + i) = id := by
      funext i
      show 0 + i = i
      omega
    rw [hfun, List.map_id]
  have hL : (ingestAll ⟨0, []⟩ words).1.queue.map (process fromWktLiteral) =
      (List.range words.length).map
        (fun i => (⟨i, fromWktLiteral ((words.getD i ("", true)).1)⟩ :
          Result α)) := by
    rw [hqueue, List.nil_append, List.map_map]
    have hfun : (process fromWktLiteral ∘
        fun i => (⟨0 + i, (words.getD i ("", true)).1⟩ : WorkItem)) =
        fun i => (⟨i, fromWktLiteral ((words.getD i ("", true)).1)⟩ :
          Result α) := by
      funext i
      show (⟨0 + i, fromWktLiteral ((words.getD i ("", true)).1)⟩ :
        Result α) = ⟨i, fromWktLiteral ((words.getD i ("", true)).1)⟩
      rw [Nat.zero_add]
    rw [hfun]
  rw [hL] at hperm
  have hpmIdx : (arrivals.map (fun r => r.index)).Perm
      (List.range words.length) := by
    have hpm := hperm.map (fun r => r.index)
    rw [List.map_map] at hpm
    have hfun : ((fun r : Result α => r.index) ∘
        fun i => (⟨i, fromWktLiteral ((words.getD i ("", true)).1)⟩ :
          Result α)) = id := rfl
    rw [hfun, List.map_id] at hpm
    exact hpm
  have hout : ∀ r ∈ arrivals,
      r.output = fromWktLiteral ((words.getD r.index ("", true)).1) := by
    intro r hr
    obtain ⟨i, hi, hri⟩ := List.mem_map.mp (hperm.mem_iff.mp hr)
    rw [← hri]
  have hnodup : (arrivals.map (fun r => r.index)).Nodup :=
    hpmIdx.nodup_iff.mpr (List.nodup_range words.length)
  have hinit : WriterInv
      (fun i => fromWktLiteral ((words.getD i ("", true)).1)) ∅
      (initialWriterState (α := α)) := by
    refine ⟨fun j => ?_, rfl, fun m hm => absurd hm (Nat.not_lt_zero m),
      Finset.not_mem_empty 0⟩
    rw [if_neg (fun hc => Finset.not_mem_empty j hc.1)]
    rfl
  have hfin := foldl_publish_inv areaValid
    (fun i => fromWktLiteral ((words.getD i ("", true)).1))
    arrivals ∅ initialWriterState hout hnodup
    (fun r _ hr => Finset.not_mem_empty r.index hr) hinit
  obtain ⟨hlookF, hfileF, hbelowF, hnextF⟩ := hfin
  have hmem : ∀ m, (m ∈ (∅ ∪ (arrivals.map (fun r => r.index)).toFinset :
      Finset Nat)) ↔ m < words.length := by
    intro m
    rw [Finset.empty_union, List.mem_toFinset, hpmIdx.mem_iff,
      List.mem_range]
  have hnle : (arrivals.foldl (publish areaValid)
      initialWriterState).next ≤ words.length := by
    by_contra hgt
    have hmm := hbelowF words.length (by omega)
    have := (hmem words.length).mp hmm
    omega
  have hnge : words.length ≤ (arrivals.foldl (publish areaValid)
      initialWriterState).next := by
    by_contra hlt2
    exact hnextF ((hmem _).mpr (by omega))
  have hneq : (arrivals.foldl (publish areaValid)
      initialWriterState).next = words.length := by omega
  have hfile2 : (runWriter areaValid arrivals).file =
      words.map (fun wb => fromWktLiteral wb.1) := by
    rw [runWriter, hfileF, hneq]
    exact range_map_getD (fun wb => fromWktLiteral wb.1) ("", true) words
  refine ⟨hidx', hfile2, fun i hi => ?_⟩
  rw [hfile2, List.getElem?_map, List.getElem?_eq_getElem hi,
    Option.map_some', List.getD_eq_getElem words ("", true) hi]

/-- Witness for `writer_pipeline_correct`: three words, one of which
fails to parse, with the preprocessing completing in reversed order. -/
theorem writer_pipeline_correct_witness :
    ([⟨2, some 4⟩, ⟨0, some 10⟩, ⟨1, none⟩] : List (Result Nat)).Perm
      ((ingestAll ⟨0, []⟩
        [("POINT(1 1)", false), ("BAD", true), ("POLY", false)]).1.queue.map
        (process (fun s => if s = "BAD" then none else some s.length))) ∧
    (runWriter (fun _ => true)
      ([⟨2, some 4⟩, ⟨0, some 10⟩, ⟨1, none⟩] : List (Result Nat))).file =
      [("POINT(1 1)", false), ("BAD", true), ("POLY", false)].map
        (fun wb => if wb.1 = "BAD" then none else some wb.1.length) :=
  ⟨by decide,
    (writer_pipeline_correct (fun s => if s = "BAD" then none else
        some s.length) (fun _ => true)
      [("POINT(1 1)", false), ("BAD", true), ("POLY", false)]
      [⟨2, some 4⟩, ⟨0, some 10⟩, ⟨1, none⟩] (by decide)).2.1⟩

end GeoWordWriter
